import Mathlib

/-!
Shallow embedding of the POP-receive inventory reconciliation engine:
the tabular ingestor (parseCSV), the branch resolver (normalizeBranchKey,
resolveCanonicalBranch), the checklist store (handleToggleCheck), the
progress calculator (progress) and the submission builder (handleSubmit),
translated from src/Component/PopTracking.tsx and src/unnamed/part_000.

JavaScript strings are modelled as Lean String over their character
lists; JS string operations (trim, split, includes, startsWith, the
regex replaces and parseInt) are modelled by the character-list
functions below.  JS numbers that hold parsed quantities are modelled
as Int; the one fractional computation (Math.round of a percentage)
is modelled exactly over IEEE binary64 arithmetic, whose values are
dyadic rationals.  localStorage is modelled as the
list of present keys (every stored value is the fixed string "true"),
and the React state map Record<string, boolean> as an association
list where lookup of an absent key reads as false (JS truthiness of
undefined).
-/

namespace PopReceive

/-- Whitespace test for the JS trim and the \s regex class (the ASCII
whitespace characters that occur in the data). -/
def wsp (c : Char) : Bool := c.isWhitespace

/-- JS String.prototype.trim on a character list. -/
def trimL (l : List Char) : List Char :=
  ((l.dropWhile wsp).reverse.dropWhile wsp).reverse

/-- JS String.prototype.split with a one-character separator. -/
def splitOnChar (sep : Char) : List Char → List (List Char)
  | [] => [[]]
  | c :: cs =>
    if c = sep then [] :: splitOnChar sep cs
    else
      match splitOnChar sep cs with
      | [] => [[c]]
      | p :: ps => (c :: p) :: ps

/-- Character-list version of startsWith. -/
def isPrefixL : List Char → List Char → Bool
  | [], _ => true
  | _ :: _, [] => false
  | a :: as, b :: bs => a = b && isPrefixL as bs

/-- Character-list version of JS String.prototype.includes. -/
def containsSub (pat : List Char) : List Char → Bool
  | [] => pat.isEmpty
  | c :: cs => isPrefixL pat (c :: cs) || containsSub pat cs

/-- Drop one leading double quote if present; used to model the JS
regex replace of a leading or trailing quote with the empty string. -/
def dropLeadQuote : List Char → List Char
  | '"' :: r => r
  | l => l

/-- The JS replace removing one leading and one trailing double quote. -/
def stripQuotesL (l : List Char) : List Char :=
  (dropLeadQuote (dropLeadQuote l).reverse).reverse

/-- The JS replace of every maximal whitespace run by one underscore
(used to build item ids).  The Bool argument records whether the
previous character was part of a whitespace run. -/
def collapseAux : Bool → List Char → List Char
  | _, [] => []
  | inRun, c :: cs =>
    if wsp c then
      if inRun then collapseAux true cs else '_' :: collapseAux true cs
    else c :: collapseAux false cs

def collapseWs (l : List Char) : List Char := collapseAux false l

/-- Decimal digit value. -/
def decVal (c : Char) : Option Nat :=
  if c.isDigit then some (c.toNat - 48) else none

/-- Hexadecimal digit value (JS parseInt auto-detects a 0x radix). -/
def hexVal (c : Char) : Option Nat :=
  if c.isDigit then some (c.toNat - 48)
  else if 'a' ≤ c && c ≤ 'f' then some (c.toNat - 87)
  else if 'A' ≤ c && c ≤ 'F' then some (c.toNat - 55)
  else none

/-- Read a maximal leading digit run; none when there is no digit
(JS parseInt returns NaN then). -/
def parseNatDigits (base : Nat) (dval : Char → Option Nat) (l : List Char) : Option Nat :=
  let ds := l.takeWhile (fun c => (dval c).isSome)
  if ds.isEmpty then none
  else some (ds.foldl (fun acc c => acc * base + ((dval c).getD 0)) 0)

/-- Unsigned part of JS parseInt with no radix argument: a leading 0x
or 0X selects base 16, otherwise base 10; trailing non-digits are
ignored. -/
def parseUnsignedJs : List Char → Option Nat
  | '0' :: 'x' :: rest => parseNatDigits 16 hexVal rest
  | '0' :: 'X' :: rest => parseNatDigits 16 hexVal rest
  | l => parseNatDigits 10 decVal l

/-- JS parseInt(s) (radix auto-detected): skip leading whitespace, an
optional sign, then the digit run; none models NaN. -/
def jsParseInt (s : String) : Option Int :=
  match (s.data.dropWhile wsp : List Char) with
  | '-' :: r => (parseUnsignedJs r).map (fun n => -(n : Int))
  | '+' :: r => (parseUnsignedJs r).map (fun n => (n : Int))
  | l => (parseUnsignedJs l).map (fun n => (n : Int))

/-- JS trim on String. -/
def jsTrim (s : String) : String := String.mk (trimL s.data)

/-- JS split on String. -/
def jsSplit (sep : Char) (s : String) : List String :=
  (splitOnChar sep s.data).map String.mk

/-- JS s.includes(pat). -/
def jsIncludes (s pat : String) : Bool := containsSub pat.data s.data

/-- JS s.startsWith(pat). -/
def jsStartsWith (s pat : String) : Bool := isPrefixL pat.data s.data

/-- The quote-stripping replace on String. -/
def stripQuotes (s : String) : String := String.mk (stripQuotesL s.data)

/-- Source: name.trim().replace removing surrounding quotes — the
cleanup applied to every header cell, item-name cell and quantity
cell. -/
def cleanCell (s : String) : String := stripQuotes (jsTrim s)

/-- Source: template literal branchName_itemName followed by
.replace(\s+ g, underscore): the deterministic item id. -/
def makeId (branchName itemName : String) : String :=
  String.mk (collapseWs (branchName.data ++ '_' :: itemName.data))

/-- Source interface InventoryItem (PopTracking.tsx). -/
structure InventoryItem where
  id : String
  branch : String
  category : String
  item : String
  qty : Int
deriving DecidableEq

/-- The header-cell registration test of parseCSV: a trimmed,
quote-stripped cell name is registered as a branch column when it is
non-empty and contains none of the reserved substrings. -/
def keepHeaderName (name : String) : Bool :=
  name != "" && !jsIncludes name "Total" && !jsIncludes name "Tracking"
    && !jsIncludes name "List" && !jsIncludes name "No."

/-- Add to the branch Set (modelled as a duplicate-free list in
insertion order). -/
def setAdd (l : List String) (x : String) : List String :=
  if x ∈ l then l else l ++ [x]

/-- The headers.forEach loop of parseCSV: register every kept column
name with its index (ascending) and add it to the branch set. -/
def processHeaderAux (idx : Nat) (hs : List String) (bs : List String) :
    List (Nat × String) × List String :=
  match hs with
  | [] => ([], bs)
  | h :: rest =>
    let name := cleanCell h
    if keepHeaderName name then
      let r := processHeaderAux (idx + 1) rest (setAdd bs name)
      ((idx, name) :: r.1, r.2)
    else processHeaderAux (idx + 1) rest bs

/-- Source: (row[index] || "0") — a missing or empty cell reads "0". -/
def cellString (row : List String) (idx : Nat) : String :=
  match row.get? idx with
  | some c => if c = "" then "0" else c
  | none => "0"

/-- The inner loop body of parseCSV over one registered branch column:
parse the quantity cell and push an item exactly when it is a number
strictly greater than zero. -/
def cellItems (cat itemName : String) (row : List String) :
    Nat × String → List InventoryItem
  | (idx, bname) =>
    match jsParseInt (cleanCell (cellString row idx)) with
    | some q => if 0 < q then
        [{ id := makeId bname itemName, branch := bname, category := cat,
           item := itemName, qty := q }]
      else []
    | none => []

/-- Source: (row[1] || row[0] || "").trim().replace — the item-name
cell with its fallback column. -/
def itemNameOf (row : List String) : String :=
  cleanCell (if row.getD 1 "" = "" then row.getD 0 "" else row.getD 1 "")

/-- One data row of parseCSV: skip short rows and subtotal or footer
rows, then scan every registered branch column. -/
def processRow (indices : List (Nat × String)) (cat : String) (line : String) :
    List InventoryItem :=
  let row := jsSplit ',' line
  if row.length < 5 then []
  else
    let itemName := itemNameOf row
    if itemName = "" || jsStartsWith itemName "Total" || jsStartsWith itemName "Tracking"
    then []
    else (indices.map (cellItems cat itemName row)).flatten

/-- The header-scan loop of parseCSV: the first line containing the
anchor "Head Office" is the header; all later lines are data rows.
When no header is found the result is empty and the branch set is
unchanged. -/
def parseCSVAux (cat : String) (branchSet : List String) :
    List String → List InventoryItem × List String
  | [] => ([], branchSet)
  | l :: ls =>
    if jsIncludes l "Head Office" then
      let hb := processHeaderAux 0 (jsSplit ',' l) branchSet
      ((ls.map (processRow hb.1 cat)).flatten, hb.2)
    else parseCSVAux cat branchSet ls

/-- Source parseCSV(csvText, categoryName, branchSet): returns the
parsed items and the branch set after the mutations performed by this
call. -/
def parseCSV (csvText cat : String) (branchSet : List String) :
    List InventoryItem × List String :=
  if csvText = "" then ([], branchSet)
  else parseCSVAux cat branchSet (jsSplit '\n' (jsTrim csvText))

/-! ## Checklist store -/

/-- Lookup in the checkedItems association list. -/
def lookupB : List (String × Bool) → String → Option Bool
  | [], _ => none
  | (k, v) :: r, id => if k = id then some v else lookupB r id

/-- JS truthiness read of checkedItems[id]: an absent key reads
false. -/
def readChecked (m : List (String × Bool)) (id : String) : Bool :=
  (lookupB m id).getD false

/-- JS object spread update: replace the value of an existing key in
place, or append a new key. -/
def setKey : List (String × Bool) → String → Bool → List (String × Bool)
  | [], id, v => [(id, v)]
  | (k, w) :: r, id, v =>
    if k = id then (id, v) :: r else (k, w) :: setKey r id v

/-- JS delete newCheckedState[id]. -/
def delKey : List (String × Bool) → String → List (String × Bool)
  | [], _ => []
  | (k, w) :: r, id => if k = id then delKey r id else (k, w) :: delKey r id

/-- localStorage key for one item id (fixed prefix plus id). -/
def popKey (id : String) : String := "pop_check_" ++ id

/-- localStorage.setItem key "true" on the key-set model. -/
def storeInsert (st : List String) (key : String) : List String :=
  if key ∈ st then st else st ++ [key]

/-- localStorage.removeItem on the key-set model. -/
def storeRemove : List String → String → List String
  | [], _ => []
  | k :: ks, key => if k = key then storeRemove ks key else k :: storeRemove ks key

/-- The state touched by handleToggleCheck: the in-memory checked map
and the durable store. -/
structure CheckSt where
  checkedItems : List (String × Bool)
  store : List String
deriving DecidableEq

/-- Source handleToggleCheck: refused when no reporting date is
selected; otherwise flip the id in the map and mirror the flip into
localStorage. -/
def handleToggleCheck (selectedDate id : String) (s : CheckSt) : CheckSt :=
  if selectedDate = "" then s
  else
    let newVal := !(readChecked s.checkedItems id)
    { checkedItems := setKey s.checkedItems id newVal
      store :=
        if newVal then storeInsert s.store (popKey id)
        else storeRemove s.store (popKey id) }

/-! ## Progress calculator -/

/-- Source interface ProgressStats. -/
structure ProgressStats where
  count : Nat
  total : Nat
  percent : Nat
  isComplete : Bool
deriving DecidableEq

/-- Fuel-driven base-2 logarithm (the fuel n suffices since the
argument halves each step); position of the leading bit of n ≥ 1. -/
def natLog2Aux : Nat → Nat → Nat
  | 0, _ => 0
  | fuel + 1, n => if n < 2 then 0 else natLog2Aux fuel (n / 2) + 1

def natLog2 (n : Nat) : Nat := natLog2Aux n n

/-- Whether 2^k ≤ a/b, for positive a b and a signed exponent k. -/
def pow2LeRat (a b : Nat) : Int → Bool
  | Int.ofNat n => decide (b * 2 ^ n ≤ a)
  | Int.negSucc f => decide (b ≤ a * 2 ^ (f + 1))

/-- ⌊log2 (a/b)⌋ for positive a b: the candidate natLog2 a - natLog2 b
is off by at most one, fixed by one comparison. -/
def ratLog2 (a b : Nat) : Int :=
  let g : Int := (natLog2 a : Int) - (natLog2 b : Int)
  if pow2LeRat a b g then g else g - 1

/-- Round the nonnegative fraction A/B to the nearest integer, ties to
even — the IEEE rounding of a scaled significand. -/
def roundNearestEven (A B : Nat) : Nat :=
  let q := A / B
  let r := A % B
  if B < 2 * r then q + 1
  else if 2 * r < B then q
  else if q % 2 = 0 then q else q + 1

/-- Round the positive rational a/b to 53 significant bits, round to
nearest, ties to even: the IEEE binary64 value as significand and
binary exponent.  The exponent range is unbounded, which agrees with
binary64 on the whole normal range and hence on every value the
progress computation produces. -/
def fl53 (a b : Nat) : Nat × Int :=
  let e : Int := ratLog2 a b - 52
  match e with
  | Int.ofNat n => (roundNearestEven a (b * 2 ^ n), e)
  | Int.negSucc f => (roundNearestEven (a * 2 ^ (f + 1)) b, e)

/-- Round the scaled integer m·2^e to binary64. -/
def flScaled : Nat × Int → Nat × Int
  | (0, _) => (0, 0)
  | (m, Int.ofNat n) => fl53 (m * 2 ^ n) 1
  | (m, Int.negSucc f) => fl53 m (2 ^ (f + 1))

/-- The JS double of checkedCount / total (exact small-integer
operands, one binary64 division). -/
def jsDivDouble (c t : Nat) : Nat × Int :=
  if c = 0 then (0, 0) else fl53 c t

/-- Binary64 multiplication of a double by the exact double 100. -/
def jsMul100 (d : Nat × Int) : Nat × Int := flScaled (100 * d.1, d.2)

/-- The double computed by (checkedCount / total) * 100 in the
source: divide, round to binary64, multiply by 100, round again. -/
def jsPercentDouble (c t : Nat) : Nat × Int := jsMul100 (jsDivDouble c t)

/-- ECMA Math.round of the nonnegative double m·2^e: the nearest
integral value, ties toward +∞, of its exact (dyadic rational)
value: ⌊m·2^e + 1/2⌋. -/
def jsRoundScaled : Nat × Int → Nat
  | (m, Int.ofNat n) => m * 2 ^ n
  | (m, Int.negSucc f) => (2 * m + 2 ^ (f + 1)) / 2 ^ (f + 2)

/-- Math.round((c / t) * 100) exactly as the program's binary64
arithmetic computes it. -/
def jsPercent (c t : Nat) : Nat := jsRoundScaled (jsPercentDouble c t)

/-- The exact rational value of the double m·2^e. -/
def dyadicVal : Nat × Int → ℚ
  | (m, Int.ofNat n) => (m : ℚ) * 2 ^ n
  | (m, Int.negSucc f) => (m : ℚ) / 2 ^ (f + 1)

/-- Source progress memo: Math.round((checkedCount / total) * 100) is
modelled exactly over IEEE binary64 arithmetic by jsPercent — the
division and the multiplication each round to 53 significant bits
(nearest, ties to even) and Math.round takes the nearest integer,
ties toward +∞, of the resulting double. -/
def progress (filteredData : List InventoryItem) (checkedItems : List (String × Bool)) :
    ProgressStats :=
  if filteredData.length = 0 then ⟨0, 0, 0, false⟩
  else
    let checkedCount := (filteredData.filter (fun it => readChecked checkedItems it.id)).length
    let total := filteredData.length
    ⟨checkedCount, total, jsPercent checkedCount total, checkedCount == total⟩

/-! ## Submission builder -/

/-- Source interface SubmitPayload. The images field holds the
attachments; their base64 encoding is a collaborator concern and is
modelled as the identity on opaque file handles. -/
structure SubmitPayload where
  branch : String
  date : String
  note : String
  images : List String
  missingItems : String
deriving DecidableEq

/-- Outcome of one handleSubmit call: a validation rejection with its
user-facing alert message, a successful dispatch of the payload, or a
network-level dispatch failure. -/
inductive SubmitOutcome where
  | rejected : String → SubmitOutcome
  | sent : SubmitPayload → SubmitOutcome
  | dispatchFailed : SubmitOutcome
deriving DecidableEq

/-- The local state read and written by handleSubmit. -/
structure ReportState where
  checkedItems : List (String × Bool)
  store : List String
  reportNote : String
  selectedFiles : List String
  isDefectMode : Bool
deriving DecidableEq

/-- missingList.flatten of newline. -/
def joinLines : List String → String
  | [] => ""
  | [x] => x
  | x :: xs => x ++ "\n" ++ joinLines xs

/-- The success cleanup of handleSubmit: reset note, files and defect
flag, and delete every cleared id from the map and from
localStorage. -/
def clearBranch (ids : List String) (s : ReportState) : ReportState :=
  { checkedItems := ids.foldl delKey s.checkedItems
    store := ids.foldl (fun st id => storeRemove st (popKey id)) s.store
    reportNote := ""
    selectedFiles := []
    isDefectMode := false }

/-- The accepted path of handleSubmit (after validation passed): build
the payload, and on dispatch success clear the branch state; on
dispatch failure leave the state untouched. -/
def submitAccept (br dt missingString : String) (allIds : List String)
    (isMissing : Bool) (dispatchOk : Bool) (s : ReportState) :
    SubmitOutcome × ReportState :=
  let finalNote :=
    if !isMissing && !s.isDefectMode then "Received All (รับครบถ้วน)" else s.reportNote
  let payload : SubmitPayload :=
    { branch := br, date := dt, note := finalNote, images := s.selectedFiles,
      missingItems := missingString }
  if dispatchOk then (.sent payload, clearBranch allIds s)
  else (.dispatchFailed, s)

/-- Source handleSubmit, with the dispatch outcome of the report POST
passed in as dispatchOk.  The nested validation conditionals of the
source are flattened into an equivalent guard chain. -/
def handleSubmit (database : List InventoryItem) (selectedBranch selectedDate : String)
    (dispatchOk : Bool) (s : ReportState) : SubmitOutcome × ReportState :=
  if selectedBranch = "" then (.rejected "กรุณาเลือกสาขา", s)
  else if selectedDate = "" then (.rejected "กรุณาเลือกวันที่", s)
  else
    let allBranchItems := database.filter (fun d => d.branch == selectedBranch)
    let missingList :=
      (allBranchItems.filter (fun it => !readChecked s.checkedItems it.id)).map
        (fun it => " " ++ it.item ++ " (จำนวน: " ++ toString it.qty ++ ")")
    let isMissing := !missingList.isEmpty
    let missingString := if isMissing then joinLines missingList else "-"
    if isMissing && (s.reportNote == "" && s.selectedFiles.isEmpty) then
      (.rejected "⚠️ ของไม่ครบ: กรุณาระบุรายละเอียด หรือแนบรูปภาพ", s)
    else if !isMissing && s.isDefectMode && s.reportNote == "" then
      (.rejected "⚠️ แจ้งชำรุด: กรุณาระบุรายละเอียดความเสียหาย", s)
    else if !isMissing && s.isDefectMode && s.selectedFiles.isEmpty then
      (.rejected "⚠️ แจ้งชำรุด: กรุณาแนบรูปภาพ/วิดีโอประกอบ", s)
    else if !isMissing && !s.isDefectMode && s.selectedFiles.isEmpty then
      (.rejected "⚠️ รับของครบ: กรุณาถ่ายรูป/วิดีโอยืนยันการรับของ", s)
    else
      submitAccept selectedBranch selectedDate missingString
        (allBranchItems.map (fun it => it.id)) isMissing dispatchOk s

/-! ## Branch resolver (src/unnamed/part_000) -/

/-- Source normalizeBranchKey: toLowerCase then the regex replace
removing every character that is not a lowercase ASCII letter, an
ASCII digit or a Thai-script codepoint (U+0E00 to U+0E7F).  JS
toLowerCase is modelled character-wise; non-ASCII cased letters
lowercase to characters outside the kept set either way. -/
def normalizeBranchKey (name : String) : String :=
  String.mk ((name.data.map Char.toLower).filter
    (fun c => ('a' ≤ c && c ≤ 'z') || ('0' ≤ c && c ≤ '9')
      || (0xE00 ≤ c.toNat && c.toNat ≤ 0xE7F)))

/-- The for-of scan of resolveCanonicalBranch over the canonical set
(a JS Set iterated in insertion order, modelled as a list). -/
def resolveLoop (rawKey : String) : List String → Option String
  | [] => none
  | c :: cs => if normalizeBranchKey c = rawKey then some c else resolveLoop rawKey cs

/-- Source resolveCanonicalBranch: null on empty input, else the first
canonical member whose normalized key matches. -/
def resolveCanonicalBranch (rawBranch : String) (canonicalBranches : List String) :
    Option String :=
  if rawBranch = "" then none
  else resolveLoop (normalizeBranchKey rawBranch) canonicalBranches

/-! ## Infrastructure lemmas -/

theorem resolveLoop_eq_find (rawKey : String) (cs : List String) :
    resolveLoop rawKey cs = cs.find? (fun c => normalizeBranchKey c == rawKey) := by
  induction cs with
  | nil => rfl
  | cons c rest ih =>
    by_cases h : normalizeBranchKey c = rawKey
    · rw [resolveLoop, if_pos h, List.find?_cons_of_pos _ (by simp [h])]
    · rw [resolveLoop, if_neg h, List.find?_cons_of_neg _ (by simp [h]), ih]

theorem lookupB_setKey (m : List (String × Bool)) (id j : String) (v : Bool) :
    lookupB (setKey m id v) j = if j = id then some v else lookupB m j := by
  induction m with
  | nil =>
    simp only [setKey, lookupB]
    by_cases h : j = id
    · simp [h]
    · simp [h, Ne.symm h]
  | cons p r ih =>
    obtain ⟨k, w⟩ := p
    by_cases hk : k = id
    · subst hk
      by_cases hj : j = k
      · simp [setKey, lookupB, hj]
      · simp [setKey, lookupB, hj, Ne.symm hj]
    · by_cases hj : k = j
      · subst hj
        simp [setKey, lookupB, hk]
      · simp [setKey, lookupB, hk, hj, ih]

theorem lookupB_delKey (m : List (String × Bool)) (id j : String) :
    lookupB (delKey m id) j = if j = id then none else lookupB m j := by
  induction m with
  | nil =>
    simp only [delKey, lookupB]
    by_cases h : j = id <;> simp [h]
  | cons p r ih =>
    obtain ⟨k, w⟩ := p
    by_cases hk : k = id
    · subst hk
      rw [delKey, if_pos rfl, ih]
      by_cases hj : j = k
      · simp [hj]
      · simp [hj, lookupB, Ne.symm hj]
    · rw [delKey, if_neg hk]
      by_cases hj : k = j
      · subst hj
        simp [lookupB, hk]
      · simp [lookupB, hj, ih]

theorem readChecked_setKey (m : List (String × Bool)) (id j : String) (v : Bool) :
    readChecked (setKey m id v) j = if j = id then v else readChecked m j := by
  unfold readChecked
  rw [lookupB_setKey]
  by_cases h : j = id <;> simp [h]

theorem readChecked_delKey (m : List (String × Bool)) (id j : String) :
    readChecked (delKey m id) j = if j = id then false else readChecked m j := by
  unfold readChecked
  rw [lookupB_delKey]
  by_cases h : j = id <;> simp [h]

theorem mem_storeRemove (st : List String) (key k : String) :
    k ∈ storeRemove st key ↔ (k ∈ st ∧ k ≠ key) := by
  induction st with
  | nil => simp [storeRemove]
  | cons a r ih =>
    by_cases ha : a = key
    · subst ha
      rw [storeRemove, if_pos rfl, ih]
      simp only [List.mem_cons]
      constructor
      · rintro ⟨h1, h2⟩
        exact ⟨Or.inr h1, h2⟩
      · rintro ⟨h1 | h1, h2⟩
        · exact absurd h1 h2
        · exact ⟨h1, h2⟩
    · rw [storeRemove, if_neg ha]
      by_cases hk : k = a
      · subst hk
        simp [ha]
      · simp [hk, ih]

theorem mem_storeInsert (st : List String) (key k : String) :
    k ∈ storeInsert st key ↔ (k ∈ st ∨ k = key) := by
  unfold storeInsert
  by_cases h : key ∈ st
  · rw [if_pos h]
    constructor
    · exact Or.inl
    · rintro (hk | hk)
      · exact hk
      · exact hk ▸ h
  · rw [if_neg h]
    simp

/-- The exact rounded integer percentage of c/t (half-up rounding of
the exact rational 100·c/t, the "rounded integer percentage" of the
spec) as a Nat division, for t ≠ 0. -/
theorem roundPercent_eq (c t : Nat) (ht : t ≠ 0) :
    (200 * c + t) / (2 * t) = ⌊100 * (c : ℚ) / t + 1 / 2⌋₊ := by
  have ht' : (t : ℚ) ≠ 0 := Nat.cast_ne_zero.mpr ht
  have h : (100 : ℚ) * c / t + 1 / 2 = ((200 * c + t : ℕ) : ℚ) / ((2 * t : ℕ) : ℚ) := by
    push_cast
    field_simp
    ring
  rw [h, Nat.floor_div_eq_div]

/-- jsRoundScaled implements Math.round on the exact value of the
double: the Nat-division formula equals ⌊value + 1/2⌋. -/
theorem jsRoundScaled_eq_floor (d : Nat × Int) :
    jsRoundScaled d = ⌊dyadicVal d + 1 / 2⌋₊ := by
  obtain ⟨m, e⟩ := d
  cases e with
  | ofNat n =>
    simp only [jsRoundScaled, dyadicVal]
    have h : (m : ℚ) * 2 ^ n + 1 / 2
        = ((2 * (m * 2 ^ n) + 1 : ℕ) : ℚ) / ((2 : ℕ) : ℚ) := by
      push_cast
      ring
    rw [h, Nat.floor_div_eq_div]
    omega
  | negSucc f =>
    simp only [jsRoundScaled, dyadicVal]
    have h : (m : ℚ) / 2 ^ (f + 1) + 1 / 2
        = ((2 * m + 2 ^ (f + 1) : ℕ) : ℚ) / ((2 ^ (f + 2) : ℕ) : ℚ) := by
      have h2 : ((2 : ℚ)) ^ (f + 1) ≠ 0 := by positivity
      push_cast
      field_simp
      ring
    rw [h, Nat.floor_div_eq_div]

theorem isEmpty_map {α β : Type} (f : α → β) (l : List α) :
    (l.map f).isEmpty = l.isEmpty := by
  cases l <;> rfl

theorem missing_isEmpty_false (db : List InventoryItem) (br : String)
    (m : List (String × Bool)) :
    ((db.filter (fun d => d.branch == br)).filter
        (fun it => !readChecked m it.id)).isEmpty = false
      ↔ ∃ it ∈ db, it.branch = br ∧ readChecked m it.id = false := by
  rw [List.isEmpty_eq_false]
  constructor
  · intro h
    obtain ⟨it, hit⟩ := List.exists_mem_of_ne_nil _ h
    rw [List.mem_filter, List.mem_filter] at hit
    exact ⟨it, hit.1.1, by simpa using hit.1.2, by simpa using hit.2⟩
  · rintro ⟨it, hmem, hbr, hunchecked⟩
    intro hnil
    rw [List.eq_nil_iff_forall_not_mem] at hnil
    refine hnil it ?_
    rw [List.mem_filter, List.mem_filter]
    exact ⟨⟨hmem, by simp [hbr]⟩, by simp [hunchecked]⟩

theorem missing_isEmpty_true (db : List InventoryItem) (br : String)
    (m : List (String × Bool)) :
    ((db.filter (fun d => d.branch == br)).filter
        (fun it => !readChecked m it.id)).isEmpty = true
      ↔ ∀ it ∈ db, it.branch = br → readChecked m it.id = true := by
  rw [List.isEmpty_eq_true, List.filter_eq_nil_iff]
  constructor
  · intro h it hmem hbr
    have := h it (List.mem_filter.mpr ⟨hmem, by simp [hbr]⟩)
    simpa using this
  · intro h it hmem
    rw [List.mem_filter] at hmem
    have hbr : it.branch = br := by simpa using hmem.2
    simp [h it hmem.1 hbr]

/-- Discriminator for the sent outcome. -/
def SubmitOutcome.isSent : SubmitOutcome → Bool
  | .sent _ => true
  | _ => false

theorem isSent_false_iff (o : SubmitOutcome) :
    o.isSent = false ↔ ∀ p, o ≠ SubmitOutcome.sent p := by
  cases o <;> simp [SubmitOutcome.isSent]

theorem isSent_true_iff (o : SubmitOutcome) :
    o.isSent = true ↔ ∃ p, o = SubmitOutcome.sent p := by
  cases o <;> simp [SubmitOutcome.isSent]

/-- Every handleSubmit call either leaves the state untouched and
sends nothing, or sends the payload and clears the submitted branch. -/
theorem handleSubmit_shape (db : List InventoryItem) (br dt : String) (ok : Bool)
    (s : ReportState) :
    ((handleSubmit db br dt ok s).2 = s
      ∧ (handleSubmit db br dt ok s).1.isSent = false)
    ∨ ((handleSubmit db br dt ok s).1.isSent = true
        ∧ (handleSubmit db br dt ok s).2
            = clearBranch ((db.filter (fun d => d.branch == br)).map (fun it => it.id)) s) := by
  simp only [handleSubmit, submitAccept]
  repeat' split
  all_goals simp [SubmitOutcome.isSent]

theorem handleSubmit_rejected_state (db : List InventoryItem) (br dt : String)
    (ok : Bool) (s : ReportState) (msg : String) :
    (handleSubmit db br dt ok s).1 = SubmitOutcome.rejected msg →
    (handleSubmit db br dt ok s).2 = s := by
  intro h
  rcases handleSubmit_shape db br dt ok s with ⟨h2, _⟩ | ⟨hp, _⟩
  · exact h2
  · rw [h] at hp
    exact absurd hp (by simp [SubmitOutcome.isSent])

theorem handleSubmit_sent_state (db : List InventoryItem) (br dt : String)
    (s : ReportState) (p : SubmitPayload)
    (h : (handleSubmit db br dt true s).1 = SubmitOutcome.sent p) :
    (handleSubmit db br dt true s).2
      = clearBranch ((db.filter (fun d => d.branch == br)).map (fun it => it.id)) s := by
  rcases handleSubmit_shape db br dt true s with ⟨_, hne⟩ | ⟨_, h2⟩
  · rw [h] at hne
    exact absurd hne (by simp [SubmitOutcome.isSent])
  · exact h2

theorem readChecked_clearList (ids : List String) (m : List (String × Bool)) (j : String) :
    readChecked (ids.foldl delKey m) j = if j ∈ ids then false else readChecked m j := by
  induction ids generalizing m with
  | nil => simp
  | cons a as ih =>
    rw [List.foldl_cons, ih]
    by_cases hj : j ∈ as
    · simp [hj]
    · by_cases ha : j = a
      · simp [hj, ha, readChecked_delKey]
      · simp [hj, ha, readChecked_delKey]

theorem mem_clearStore (ids : List String) (st : List String) (k : String) :
    k ∈ ids.foldl (fun acc id => storeRemove acc (popKey id)) st
      ↔ (k ∈ st ∧ ∀ id ∈ ids, k ≠ popKey id) := by
  induction ids generalizing st with
  | nil => simp
  | cons a as ih =>
    rw [List.foldl_cons, ih, mem_storeRemove]
    constructor
    · rintro ⟨⟨h1, h2⟩, h3⟩
      refine ⟨h1, fun id hid => ?_⟩
      rcases List.mem_cons.mp hid with rfl | hid
      · exact h2
      · exact h3 id hid
    · rintro ⟨h1, h2⟩
      exact ⟨⟨h1, h2 a (List.mem_cons_self a as)⟩,
        fun id hid => h2 id (List.mem_cons_of_mem a hid)⟩

theorem popKey_inj {a b : String} (h : popKey a = popKey b) : a = b := by
  have hd := congrArg String.data h
  rw [popKey, popKey, String.data_append, String.data_append] at hd
  exact String.ext (List.append_cancel_left hd)

theorem cellItems_spec (cat nm : String) (row : List String) (idx : Nat) (bname : String)
    (it : InventoryItem) (h : it ∈ cellItems cat nm row (idx, bname)) :
    it.id = makeId it.branch it.item ∧ 0 < it.qty
      ∧ jsParseInt (cleanCell (cellString row idx)) = some it.qty := by
  cases hq : jsParseInt (cleanCell (cellString row idx)) with
  | none =>
    simp only [cellItems, hq] at h
    cases h
  | some q =>
    simp only [cellItems, hq] at h
    by_cases hpos : 0 < q
    · rw [if_pos hpos] at h
      obtain rfl := List.mem_singleton.mp h
      exact ⟨rfl, hpos, rfl⟩
    · rw [if_neg hpos] at h
      cases h

theorem processRow_spec (indices : List (Nat × String)) (cat line : String)
    (it : InventoryItem) (h : it ∈ processRow indices cat line) :
    it.id = makeId it.branch it.item ∧ 0 < it.qty := by
  simp only [processRow] at h
  split at h
  · cases h
  · split at h
    · cases h
    · rw [List.mem_flatten] at h
      obtain ⟨xs, hxs, hit⟩ := h
      obtain ⟨e, _, rfl⟩ := List.mem_map.mp hxs
      obtain ⟨idx, bname⟩ := e
      have := cellItems_spec cat (itemNameOf (jsSplit ',' line)) (jsSplit ',' line)
        idx bname it hit
      exact ⟨this.1, this.2.1⟩

theorem parseCSVAux_spec (cat : String) (bs : List String) (lines : List String)
    (it : InventoryItem) (h : it ∈ (parseCSVAux cat bs lines).1) :
    it.id = makeId it.branch it.item ∧ 0 < it.qty := by
  induction lines generalizing bs with
  | nil => cases h
  | cons l ls ih =>
    simp only [parseCSVAux] at h
    split at h
    · rw [List.mem_flatten] at h
      obtain ⟨xs, hxs, hit⟩ := h
      obtain ⟨line, _, rfl⟩ := List.mem_map.mp hxs
      exact processRow_spec _ _ _ _ hit
    · exact ih bs h

theorem parseCSV_spec (csv cat : String) (bs : List String) (it : InventoryItem)
    (h : it ∈ (parseCSV csv cat bs).1) :
    it.id = makeId it.branch it.item ∧ 0 < it.qty := by
  unfold parseCSV at h
  split at h
  · cases h
  · exact parseCSVAux_spec _ _ _ _ h

theorem mem_setAdd_self (bs : List String) (x : String) : x ∈ setAdd bs x := by
  by_cases h : x ∈ bs
  · rw [setAdd, if_pos h]
    exact h
  · simp [setAdd, h]

theorem mem_setAdd_of_mem (bs : List String) (x y : String) (h : x ∈ bs) :
    x ∈ setAdd bs y := by
  by_cases hy : y ∈ bs <;> simp [setAdd, hy, h]

theorem processHeaderAux_bs_mono (i : Nat) (hs bs : List String) (x : String)
    (h : x ∈ bs) : x ∈ (processHeaderAux i hs bs).2 := by
  induction hs generalizing i bs with
  | nil =>
    simp only [processHeaderAux]
    exact h
  | cons hd tl ih =>
    simp only [processHeaderAux]
    split
    · exact ih (i + 1) (setAdd bs (cleanCell hd)) (mem_setAdd_of_mem _ _ _ h)
    · exact ih (i + 1) bs h

theorem processHeaderAux_mem (i : Nat) (headers bs : List String) (k : Nat) (h : String)
    (hget : headers.get? k = some h) (hkeep : keepHeaderName (cleanCell h) = true) :
    ((i + k, cleanCell h) ∈ (processHeaderAux i headers bs).1
      ∧ cleanCell h ∈ (processHeaderAux i headers bs).2) := by
  induction headers generalizing i bs k with
  | nil => exact Option.noConfusion hget
  | cons hd tl ih =>
    cases k with
    | zero =>
      rw [List.get?_cons_zero] at hget
      obtain rfl : hd = h := by injection hget
      simp only [processHeaderAux]
      rw [if_pos hkeep]
      refine ⟨by simp, ?_⟩
      exact processHeaderAux_bs_mono _ _ _ _ (mem_setAdd_self bs (cleanCell hd))
    | succ k' =>
      rw [List.get?_cons_succ] at hget
      simp only [processHeaderAux]
      by_cases hk : keepHeaderName (cleanCell hd) = true
      · rw [if_pos hk]
        have hrec := ih (i + 1) (setAdd bs (cleanCell hd)) k' hget
        have harith : i + 1 + k' = i + (k' + 1) := by omega
        exact ⟨List.mem_cons_of_mem _ (harith ▸ hrec.1), hrec.2⟩
      · rw [if_neg hk]
        have hrec := ih (i + 1) bs k' hget
        have harith : i + 1 + k' = i + (k' + 1) := by omega
        exact ⟨harith ▸ hrec.1, hrec.2⟩

/-- Five-item branch with every item checked, the worked example of
the progress calculator. -/
def ex5Items : List InventoryItem :=
  [⟨"B_i1", "B", "RE-Brand", "i1", 1⟩, ⟨"B_i2", "B", "RE-Brand", "i2", 1⟩,
   ⟨"B_i3", "B", "RE-Brand", "i3", 1⟩, ⟨"B_i4", "B", "RE-Brand", "i4", 1⟩,
   ⟨"B_i5", "B", "RE-Brand", "i5", 1⟩]

def ex5Checks : List (String × Bool) :=
  [("B_i1", true), ("B_i2", true), ("B_i3", true), ("B_i4", true), ("B_i5", true)]

/-- Forty-item branch with the first 23 checked: the state at which
the float percentage (23/40)·100 lands just below 57.5. -/
def ex40Items : List InventoryItem :=
  (List.range 40).map (fun n => ⟨"i" ++ toString n, "B", "RE-Brand", "x" ++ toString n, 1⟩)

def ex40Checks : List (String × Bool) :=
  (List.range 23).map (fun n => ("i" ++ toString n, true))

/-! ## Claim theorems -/

/-- C7: resolve returns the first member of the canonical set (in
iteration order) whose normalizeKey equals normalizeKey of the input,
and not-found when the input is empty or no member matches; the
normalize keys of "Bangkok Branch " and "bangkok-branch" coincide and
resolve maps either string to the canonical label when the set
contains the other. -/
theorem C7_branch_resolver :
    (∀ (raw : String) (cs : List String), raw ≠ "" →
      resolveCanonicalBranch raw cs
        = cs.find? (fun c => normalizeBranchKey c == normalizeBranchKey raw))
    ∧ (∀ cs : List String, resolveCanonicalBranch "" cs = none)
    ∧ (∀ (raw : String) (cs : List String),
        (∀ c ∈ cs, normalizeBranchKey c ≠ normalizeBranchKey raw) →
        resolveCanonicalBranch raw cs = none)
    ∧ normalizeBranchKey "Bangkok Branch " = normalizeBranchKey "bangkok-branch"
    ∧ resolveCanonicalBranch "Bangkok Branch " ["bangkok-branch"] = some "bangkok-branch"
    ∧ resolveCanonicalBranch "bangkok-branch" ["Bangkok Branch "] = some "Bangkok Branch " := by
  refine ⟨?_, ?_, ?_, by decide, by decide, by decide⟩
  · intro raw cs hraw
    rw [resolveCanonicalBranch, if_neg hraw, resolveLoop_eq_find]
  · intro cs
    rfl
  · intro raw cs hnone
    by_cases hraw : raw = ""
    · rw [hraw]; rfl
    · rw [resolveCanonicalBranch, if_neg hraw, resolveLoop_eq_find]
      rw [List.find?_eq_none]
      intro c hc
      simpa using hnone c hc

theorem C7_branch_resolver_witness :
    resolveCanonicalBranch "Bangkok Branch " ["bangkok-branch"]
      = List.find?
          (fun c => normalizeBranchKey c == normalizeBranchKey "Bangkok Branch ")
          ["bangkok-branch"]
    ∧ resolveCanonicalBranch "Q" ["zz"] = none :=
  ⟨C7_branch_resolver.1 "Bangkok Branch " ["bangkok-branch"] (by decide),
   C7_branch_resolver.2.2.1 "Q" ["zz"] (fun c hc => by
     simp only [List.mem_singleton] at hc
     rw [hc]
     decide)⟩

/-- C4: ingesting the header row "No.,List,Head Office,BranchA,BranchB,Total"
(two reserved leading columns, then the anchor and the branch columns)
followed by the data row "1,Widget,0,5,3,8" yields exactly two items,
(BranchA, Widget, qty 5) and (BranchB, Widget, qty 3): no item for the
qty-0 cell of the Head Office column and none for the Total column. -/
theorem C4_ingestion_example :
    parseCSV "No.,List,Head Office,BranchA,BranchB,Total\n1,Widget,0,5,3,8" "RE-Brand" []
      = ([⟨"BranchA_Widget", "BranchA", "RE-Brand", "Widget", 5⟩,
          ⟨"BranchB_Widget", "BranchB", "RE-Brand", "Widget", 3⟩],
         ["Head Office", "BranchA", "BranchB"]) := by
  decide

/-- C3: when the report dispatch fails, handleSubmit leaves the whole
local state (checked map, durable store, note, attachments, defect
flag) exactly as it was. -/
theorem C3_dispatch_failure_preserves_state (db : List InventoryItem)
    (br dt : String) (s : ReportState) :
    (handleSubmit db br dt false s).2 = s := by
  simp only [handleSubmit, submitAccept]
  repeat' split
  all_goals first | rfl | simp_all

/-- C8: with a reporting date selected, toggling the same item id
twice restores the original checked reads (every id reads as it did
before) and the original durable-store key set.  The hypothesis is the
store invariant: the durable key for the toggled id is present exactly
when the id reads as checked. -/
theorem C8_double_toggle_restores (dt id : String) (s : CheckSt) (hdt : dt ≠ "")
    (hcons : popKey id ∈ s.store ↔ readChecked s.checkedItems id = true) :
    (∀ j : String,
      readChecked (handleToggleCheck dt id (handleToggleCheck dt id s)).checkedItems j
        = readChecked s.checkedItems j)
    ∧ (∀ k : String,
      (k ∈ (handleToggleCheck dt id (handleToggleCheck dt id s)).store ↔ k ∈ s.store)) := by
  have hread : readChecked (setKey s.checkedItems id (!readChecked s.checkedItems id)) id
      = !readChecked s.checkedItems id := by
    rw [readChecked_setKey, if_pos rfl]
  constructor
  · intro j
    simp only [handleToggleCheck, if_neg hdt]
    by_cases hj : j = id
    · subst hj
      simp [hread, readChecked_setKey, Bool.not_not]
    · simp only [readChecked_setKey, if_neg hj]
  · intro k
    simp only [handleToggleCheck, if_neg hdt, hread, Bool.not_not]
    cases hb : readChecked s.checkedItems id with
    | true =>
      have hkey : popKey id ∈ s.store := hcons.mpr hb
      by_cases hk : k = popKey id
      · subst hk
        simp [hb, mem_storeInsert, mem_storeRemove, hkey]
      · simp [hb, mem_storeInsert, mem_storeRemove, hk]
    | false =>
      have hkey : popKey id ∉ s.store := fun hmem => by
        rw [hcons, hb] at hmem
        exact absurd hmem (by decide)
      by_cases hk : k = popKey id
      · subst hk
        simp [hb, mem_storeInsert, mem_storeRemove, hkey]
      · simp [hb, mem_storeInsert, mem_storeRemove, hk]

theorem C8_double_toggle_restores_witness :
    readChecked
      (handleToggleCheck "2024-01-01" "a"
        (handleToggleCheck "2024-01-01" "a" ⟨[("a", true)], ["pop_check_a"]⟩)).checkedItems "a"
      = readChecked [("a", true)] "a"
    ∧ ("pop_check_a" ∈ (handleToggleCheck "2024-01-01" "a"
          (handleToggleCheck "2024-01-01" "a" ⟨[("a", true)], ["pop_check_a"]⟩)).store
        ↔ "pop_check_a" ∈ (["pop_check_a"] : List String)) := by
  have h := C8_double_toggle_restores "2024-01-01" "a" ⟨[("a", true)], ["pop_check_a"]⟩
      (by decide) (by decide)
  exact ⟨h.1 "a", h.2 "pop_check_a"⟩

/-- C9 counterexample: at 23 checked of 40 the program computes
percent 57 — the double (23/40)·100 falls just below 57.5 — while the
exact rounded integer percentage of 23/40 is 58, so percent is not the
rounded integer percentage of count/total. -/
theorem C9_progress_float_counterexample :
    (progress ex40Items ex40Checks).count = 23
    ∧ (progress ex40Items ex40Checks).total = 40
    ∧ (progress ex40Items ex40Checks).percent = 57
    ∧ ¬((progress ex40Items ex40Checks).percent
        = ⌊100 * ((progress ex40Items ex40Checks).count : ℚ)
            / ((progress ex40Items ex40Checks).total : ℚ) + 1 / 2⌋₊) := by
  have hc : (progress ex40Items ex40Checks).count = 23 := by decide
  have ht : (progress ex40Items ex40Checks).total = 40 := by decide
  have hp : (progress ex40Items ex40Checks).percent = 57 := by decide
  refine ⟨hc, ht, hp, ?_⟩
  rw [hp, hc, ht, ← roundPercent_eq 23 40 (by decide)]
  decide

/-- C9 (amended): the progress computation is a pure function of the
filtered items and check state: total is the item count, count the
number of checked items, percent is Math.round of the binary64
evaluation of (count/total)·100 — the nearest integer, ties toward
+∞, of the exact value of that double, which can differ by one from
the exact rounded percentage (57 rather than 58 at 23 of 40) — with
percent 0 when total is 0, and isComplete holds exactly when
count = total and the list is non-empty; five items all checked give
count 5, total 5, percent 100, complete. -/
theorem C9_progress_pure_amended (items : List InventoryItem) (cs : List (String × Bool)) :
    (progress items cs).total = items.length
    ∧ (progress items cs).count
        = (items.filter (fun it => readChecked cs it.id)).length
    ∧ (items = [] → progress items cs = ⟨0, 0, 0, false⟩)
    ∧ (items ≠ [] →
        (progress items cs).percent
          = ⌊dyadicVal (jsPercentDouble (progress items cs).count
              (progress items cs).total) + 1 / 2⌋₊)
    ∧ ((progress items cs).isComplete = true
        ↔ ((progress items cs).count = (progress items cs).total ∧ items ≠ []))
    ∧ progress ex5Items ex5Checks = ⟨5, 5, 100, true⟩
    ∧ progress ex40Items ex40Checks = ⟨23, 40, 57, false⟩ := by
  by_cases h : items = []
  · subst h
    exact ⟨rfl, rfl, fun _ => rfl, fun hne => absurd rfl hne, by simp [progress],
      by decide, by decide⟩
  · have hlen : ¬items.length = 0 := by simpa [List.length_eq_zero] using h
    refine ⟨by simp [progress, hlen], by simp [progress, hlen], fun he => absurd he h,
      ?_, ?_, by decide, by decide⟩
    · intro _
      simp only [progress, if_neg hlen]
      exact jsRoundScaled_eq_floor _
    · simp only [progress, if_neg hlen]
      rw [beq_iff_eq]
      exact ⟨fun hh => ⟨hh, h⟩, fun hh => hh.1⟩

theorem C9_progress_pure_amended_witness :
    (progress ex5Items ex5Checks).percent
      = ⌊dyadicVal (jsPercentDouble (progress ex5Items ex5Checks).count
          (progress ex5Items ex5Checks).total) + 1 / 2⌋₊ :=
  (C9_progress_pure_amended ex5Items ex5Checks).2.2.2.1 (by decide)

/-- C1: with a branch and date selected, handleSubmit follows the
three-mode evidence table: when some branch item is unchecked the
submission is sent iff the note is non-empty or an attachment is
present; when all are checked and defect mode is on it is sent iff
both note and attachment are present; when all are checked and defect
mode is off it is sent iff an attachment is present, and the sent
payload's note is the fixed fully-received marker; every rejection
leaves the state untouched and sends no payload. -/
theorem C1_evidence_rules (db : List InventoryItem) (br dt : String) (s : ReportState)
    (hbr : br ≠ "") (hdt : dt ≠ "") :
    ((∃ it ∈ db, it.branch = br ∧ readChecked s.checkedItems it.id = false) →
      ((∃ p, (handleSubmit db br dt true s).1 = SubmitOutcome.sent p)
        ↔ (s.reportNote ≠ "" ∨ s.selectedFiles ≠ [])))
    ∧ ((∀ it ∈ db, it.branch = br → readChecked s.checkedItems it.id = true) →
        s.isDefectMode = true →
        ((∃ p, (handleSubmit db br dt true s).1 = SubmitOutcome.sent p)
          ↔ (s.reportNote ≠ "" ∧ s.selectedFiles ≠ [])))
    ∧ ((∀ it ∈ db, it.branch = br → readChecked s.checkedItems it.id = true) →
        s.isDefectMode = false →
        (((∃ p, (handleSubmit db br dt true s).1 = SubmitOutcome.sent p)
            ↔ s.selectedFiles ≠ [])
          ∧ (∀ p, (handleSubmit db br dt true s).1 = SubmitOutcome.sent p →
              p.note = "Received All (รับครบถ้วน)")))
    ∧ (∀ msg, (handleSubmit db br dt true s).1 = SubmitOutcome.rejected msg →
        ((handleSubmit db br dt true s).2 = s
          ∧ ∀ p, (handleSubmit db br dt true s).1 ≠ SubmitOutcome.sent p)) := by
  refine ⟨?_, ?_, ?_, ?_⟩
  · intro hmiss
    have hM : ((db.filter (fun d => d.branch == br)).filter
        (fun it => !readChecked s.checkedItems it.id)).isEmpty = false :=
      (missing_isEmpty_false db br s.checkedItems).mpr hmiss
    simp only [handleSubmit, if_neg hbr, if_neg hdt, isEmpty_map, hM, submitAccept]
    by_cases hn : s.reportNote = "" <;> by_cases hf : s.selectedFiles = [] <;>
      simp [hn, hf]
  · intro hall hdef
    have hM : ((db.filter (fun d => d.branch == br)).filter
        (fun it => !readChecked s.checkedItems it.id)).isEmpty = true :=
      (missing_isEmpty_true db br s.checkedItems).mpr hall
    simp only [handleSubmit, if_neg hbr, if_neg hdt, isEmpty_map, hM, submitAccept, hdef]
    by_cases hn : s.reportNote = "" <;> by_cases hf : s.selectedFiles = [] <;>
      simp [hn, hf]
  · intro hall hdef
    have hM : ((db.filter (fun d => d.branch == br)).filter
        (fun it => !readChecked s.checkedItems it.id)).isEmpty = true :=
      (missing_isEmpty_true db br s.checkedItems).mpr hall
    simp only [handleSubmit, if_neg hbr, if_neg hdt, isEmpty_map, hM, submitAccept, hdef]
    by_cases hf : s.selectedFiles = [] <;> simp [hf]
  · intro msg hmsg
    refine ⟨handleSubmit_rejected_state db br dt true s msg hmsg, ?_⟩
    intro p hp
    rw [hmsg] at hp
    exact SubmitOutcome.noConfusion hp

/-- Concrete two-branch database and pre-submit state used by the
submission witnesses. -/
def exDb : List InventoryItem :=
  [⟨"A_x", "A", "c", "x", 1⟩, ⟨"B_y", "B", "c", "y", 2⟩]

def exState : ReportState :=
  ⟨[("A_x", true), ("B_y", true)], ["pop_check_A_x", "pop_check_B_y"], "", ["f1"], false⟩

def exPayload : SubmitPayload :=
  ⟨"A", "2024-01-01", "Received All (รับครบถ้วน)", ["f1"], "-"⟩

theorem C1_evidence_rules_witness :
    (handleSubmit [⟨"A_x", "A", "c", "x", 1⟩] "A" "2024-01-01" true
        ⟨[], [], "", [], false⟩).2
      = (⟨[], [], "", [], false⟩ : ReportState) := by
  have h := C1_evidence_rules [⟨"A_x", "A", "c", "x", 1⟩] "A" "2024-01-01"
      ⟨[], [], "", [], false⟩ (by decide) (by decide)
  exact (h.2.2.2 "⚠️ ของไม่ครบ: กรุณาระบุรายละเอียด หรือแนบรูปภาพ" (by decide)).1

/-- C2: after a successful dispatch the cleared state has no checked
entry (in memory or durable) for any item id of the submitted branch,
leaves ids of other branches unchanged in both places, and resets the
note, attachment list and defect flag; the separation hypothesis says
no other-branch item shares an id with a submitted-branch item. -/
theorem C2_success_clears_branch (db : List InventoryItem) (br dt : String)
    (s : ReportState) (p : SubmitPayload)
    (hsent : (handleSubmit db br dt true s).1 = SubmitOutcome.sent p)
    (hsep : ∀ j ∈ db, j.branch ≠ br → ∀ i ∈ db, i.branch = br → j.id ≠ i.id) :
    (∀ i ∈ db, i.branch = br →
      (readChecked (handleSubmit db br dt true s).2.checkedItems i.id = false
        ∧ popKey i.id ∉ (handleSubmit db br dt true s).2.store))
    ∧ (∀ j ∈ db, j.branch ≠ br →
      (readChecked (handleSubmit db br dt true s).2.checkedItems j.id
          = readChecked s.checkedItems j.id
        ∧ (popKey j.id ∈ (handleSubmit db br dt true s).2.store
            ↔ popKey j.id ∈ s.store)))
    ∧ (handleSubmit db br dt true s).2.reportNote = ""
    ∧ (handleSubmit db br dt true s).2.selectedFiles = []
    ∧ (handleSubmit db br dt true s).2.isDefectMode = false := by
  rw [handleSubmit_sent_state db br dt s p hsent]
  refine ⟨?_, ?_, rfl, rfl, rfl⟩
  · intro i hi hib
    have hmem : i.id ∈ (db.filter (fun d => d.branch == br)).map (fun it => it.id) :=
      List.mem_map.mpr ⟨i, List.mem_filter.mpr ⟨hi, by simp [hib]⟩, rfl⟩
    constructor
    · rw [show (clearBranch ((db.filter (fun d => d.branch == br)).map (fun it => it.id)) s).checkedItems
          = ((db.filter (fun d => d.branch == br)).map (fun it => it.id)).foldl delKey s.checkedItems
        from rfl, readChecked_clearList, if_pos hmem]
    · rw [show (clearBranch ((db.filter (fun d => d.branch == br)).map (fun it => it.id)) s).store
          = ((db.filter (fun d => d.branch == br)).map (fun it => it.id)).foldl
              (fun acc id => storeRemove acc (popKey id)) s.store
        from rfl, mem_clearStore]
      rintro ⟨_, hall⟩
      exact hall i.id hmem rfl
  · intro j hj hjb
    have hnot : j.id ∉ (db.filter (fun d => d.branch == br)).map (fun it => it.id) := by
      intro hmem
      obtain ⟨i, hif, hide⟩ := List.mem_map.mp hmem
      rw [List.mem_filter] at hif
      have hib : i.branch = br := by simpa using hif.2
      exact hsep j hj hjb i hif.1 hib hide.symm
    constructor
    · rw [show (clearBranch ((db.filter (fun d => d.branch == br)).map (fun it => it.id)) s).checkedItems
          = ((db.filter (fun d => d.branch == br)).map (fun it => it.id)).foldl delKey s.checkedItems
        from rfl, readChecked_clearList, if_neg hnot]
    · rw [show (clearBranch ((db.filter (fun d => d.branch == br)).map (fun it => it.id)) s).store
          = ((db.filter (fun d => d.branch == br)).map (fun it => it.id)).foldl
              (fun acc id => storeRemove acc (popKey id)) s.store
        from rfl, mem_clearStore]
      constructor
      · exact And.left
      · intro hst
        refine ⟨hst, fun id hid heq => ?_⟩
        exact hnot (popKey_inj heq ▸ hid)

theorem C2_success_clears_branch_witness :
    (readChecked (handleSubmit exDb "A" "2024-01-01" true exState).2.checkedItems "A_x" = false
      ∧ popKey "A_x" ∉ (handleSubmit exDb "A" "2024-01-01" true exState).2.store)
    ∧ (readChecked (handleSubmit exDb "A" "2024-01-01" true exState).2.checkedItems "B_y"
        = readChecked exState.checkedItems "B_y")
    ∧ (handleSubmit exDb "A" "2024-01-01" true exState).2.reportNote = "" := by
  have h := C2_success_clears_branch exDb "A" "2024-01-01" exState exPayload
      (by decide) (by decide)
  exact ⟨h.1 ⟨"A_x", "A", "c", "x", 1⟩ (by decide) rfl,
    (h.2.1 ⟨"B_y", "B", "c", "y", 2⟩ (by decide) (by decide)).1, h.2.2.1⟩

/-- C5: per branch column of a data row, an item is created iff the
quantity cell parses to an integer strictly greater than zero; the
created item carries that parsed quantity, so every item stored by
ingestion has a positive quantity and zero or non-numeric cells store
nothing. -/
theorem C5_positive_qty :
    (∀ (cat itemName : String) (row : List String) (idx : Nat) (bname : String),
      cellItems cat itemName row (idx, bname) ≠ []
        ↔ ∃ q : Int, jsParseInt (cleanCell (cellString row idx)) = some q ∧ 0 < q)
    ∧ (∀ (cat itemName : String) (row : List String) (idx : Nat) (bname : String)
        (it : InventoryItem), it ∈ cellItems cat itemName row (idx, bname) →
        (jsParseInt (cleanCell (cellString row idx)) = some it.qty ∧ 0 < it.qty))
    ∧ (∀ (csv cat : String) (bs : List String) (it : InventoryItem),
        it ∈ (parseCSV csv cat bs).1 → 0 < it.qty) := by
  refine ⟨?_, ?_, ?_⟩
  · intro cat nm row idx bname
    constructor
    · intro hne
      cases hq : jsParseInt (cleanCell (cellString row idx)) with
      | none => exact absurd (by simp [cellItems, hq]) hne
      | some q =>
        by_cases hpos : 0 < q
        · exact ⟨q, rfl, hpos⟩
        · exact absurd (by simp [cellItems, hq, hpos]) hne
    · rintro ⟨q, hq, hpos⟩
      simp [cellItems, hq, hpos]
  · intro cat nm row idx bname it h
    exact ⟨(cellItems_spec cat nm row idx bname it h).2.2,
      (cellItems_spec cat nm row idx bname it h).2.1⟩
  · intro csv cat bs it h
    exact (parseCSV_spec csv cat bs it h).2

theorem C5_positive_qty_witness :
    cellItems "c" "x" ["3"] (0, "b") ≠ [] :=
  (C5_positive_qty.1 "c" "x" ["3"] 0 "b").mpr ⟨3, by decide, by decide⟩

/-- C6: every ingested item's id equals the deterministic function of
its branch and item name (concatenation with whitespace runs collapsed
to an underscore), so any two items produced by any ingestion calls
with the same branch and item name share the same id, whatever
category or source supplied them. -/
theorem C6_id_deterministic :
    (∀ (csv cat : String) (bs : List String) (it : InventoryItem),
      it ∈ (parseCSV csv cat bs).1 → it.id = makeId it.branch it.item)
    ∧ (∀ (csv1 cat1 csv2 cat2 : String) (bs1 bs2 : List String)
        (i1 i2 : InventoryItem),
        i1 ∈ (parseCSV csv1 cat1 bs1).1 → i2 ∈ (parseCSV csv2 cat2 bs2).1 →
        i1.branch = i2.branch → i1.item = i2.item → i1.id = i2.id) := by
  refine ⟨fun csv cat bs it h => (parseCSV_spec csv cat bs it h).1, ?_⟩
  intro csv1 cat1 csv2 cat2 bs1 bs2 i1 i2 h1 h2 hb hi
  rw [(parseCSV_spec _ _ _ _ h1).1, (parseCSV_spec _ _ _ _ h2).1, hb, hi]

theorem C6_id_deterministic_witness :
    (⟨"b_x", "b", "c1", "x", 5⟩ : InventoryItem).id
      = makeId (⟨"b_x", "b", "c1", "x", 5⟩ : InventoryItem).branch
          (⟨"b_x", "b", "c1", "x", 5⟩ : InventoryItem).item :=
  C6_id_deterministic.1 "Head Office,No.,b,List,Total\n7,x,5,0,0" "c1" [] _ (by decide)

/-- C10: the anchor label "Head Office" passes the branch-column
registration test; a header cell cleaning to "Head Office" registers
that column and adds "Head Office" to the returned branch set; a
data-row cell in that column parsing to a positive integer produces an
item with branch "Head Office"; concretely, ingesting a sheet whose
Head Office column holds 4 yields a (Head Office, W, 4) item and
"Head Office" in the branch set. -/
theorem C10_head_office_column :
    keepHeaderName "Head Office" = true
    ∧ (∀ (headers bs : List String) (k : Nat) (h : String),
        headers.get? k = some h → cleanCell h = "Head Office" →
        ((k, "Head Office") ∈ (processHeaderAux 0 headers bs).1
          ∧ "Head Office" ∈ (processHeaderAux 0 headers bs).2))
    ∧ (∀ (indices : List (Nat × String)) (cat line : String) (k : Nat) (q : Int),
        (k, "Head Office") ∈ indices →
        ¬(jsSplit ',' line).length < 5 →
        itemNameOf (jsSplit ',' line) ≠ "" →
        jsStartsWith (itemNameOf (jsSplit ',' line)) "Total" = false →
        jsStartsWith (itemNameOf (jsSplit ',' line)) "Tracking" = false →
        jsParseInt (cleanCell (cellString (jsSplit ',' line) k)) = some q →
        0 < q →
        ({ id := makeId "Head Office" (itemNameOf (jsSplit ',' line)),
           branch := "Head Office", category := cat,
           item := itemNameOf (jsSplit ',' line), qty := q } : InventoryItem)
          ∈ processRow indices cat line)
    ∧ parseCSV "No.,List,Head Office,BranchA,Total\n1,W,4,2,9" "c" []
        = ([⟨"Head_Office_W", "Head Office", "c", "W", 4⟩,
            ⟨"BranchA_W", "BranchA", "c", "W", 2⟩],
           ["Head Office", "BranchA"]) := by
  refine ⟨by decide, ?_, ?_, by decide⟩
  · intro headers bs k h hget hclean
    have hmem := processHeaderAux_mem 0 headers bs k h hget (by rw [hclean]; decide)
    rw [hclean] at hmem
    simpa using hmem
  · intro indices cat line k q hidx hlen hname ht1 ht2 hparse hq
    simp only [processRow]
    rw [if_neg hlen, if_neg (by simp [hname, ht1, ht2])]
    rw [List.mem_flatten]
    refine ⟨cellItems cat (itemNameOf (jsSplit ',' line)) (jsSplit ',' line)
        (k, "Head Office"),
      List.mem_map.mpr ⟨(k, "Head Office"), hidx, rfl⟩, ?_⟩
    simp [cellItems, hparse, hq]

theorem C10_head_office_column_witness :
    (1, "Head Office") ∈ (processHeaderAux 0 ["x", "Head Office"] []).1
      ∧ "Head Office" ∈ (processHeaderAux 0 ["x", "Head Office"] []).2 :=
  C10_head_office_column.2.1 ["x", "Head Office"] [] 1 "Head Office" (by decide) (by decide)

end PopReceive
